import Mathlib

/-!
Verification of the leathersense durable-queue / forwarder subsystem
(`src/common.py`, `src/collector.py`, `src/sync.py`).

The local SQLite table `queue_readings` is modelled as a `List QueueReading`;
each SQL statement becomes a pure list transformation, `cur.rowcount` becomes
the `Nat` component of the operation's result, and the remote MySQL bulk write
is modelled by an oracle `ok : List α → Bool` saying whether a given batch is
accepted.  Wall-clock time (`time.time()`) is modelled as a rational number of
seconds.
-/

/-- One row of the local SQLite table `queue_readings`
(schema in `common.init_sqlite_queue`).  The `synced`/`dead` integer flag
columns (0/1) are modelled as `Bool`, `REAL` columns as `Option ℚ`, and
nullable text columns as `Option String`. -/
structure QueueReading where
  reading_uuid : String
  device_key : String
  sensor_type : String
  pin : String
  ts_epoch_utc : Int
  ts_utc : String
  temperature_c : Option ℚ
  humidity_pct : Option ℚ
  ok : Bool
  error_msg : Option String
  synced : Bool
  dead : Bool
  attempts : Nat
  last_attempt_utc : Option String
deriving DecidableEq

/-- `collector.insert_queue`: appends one new row with
`synced=0, dead=0, attempts=0`.  The module-level constants
`DEVICE_KEY`/`SENSOR_TYPE`/`SENSOR_PIN` are passed as parameters. -/
def insert_queue (q : List QueueReading) (device_key sensor_type pin : String)
    (reading_uuid : String) (ts_epoch_utc : Int) (ts_utc : String)
    (temperature_c humidity_pct : Option ℚ) (ok : Bool) (error_msg : Option String) :
    List QueueReading :=
  q ++ [{ reading_uuid := reading_uuid, device_key := device_key,
          sensor_type := sensor_type, pin := pin, ts_epoch_utc := ts_epoch_utc,
          ts_utc := ts_utc, temperature_c := temperature_c,
          humidity_pct := humidity_pct, ok := ok, error_msg := error_msg,
          synced := false, dead := false, attempts := 0,
          last_attempt_utc := none }]

/-- The row type produced by `sync.fetch_unsynced`'s SELECT
(the 10 projected columns, in SELECT order). -/
structure FetchRow where
  reading_uuid : String
  device_key : String
  sensor_type : String
  pin : String
  ts_utc : String
  temperature_c : Option ℚ
  humidity_pct : Option ℚ
  ok : Bool
  error_msg : Option String
  attempts : Nat
deriving DecidableEq

/-- Column projection of the SELECT in `sync.fetch_unsynced`. -/
def fetch_row (r : QueueReading) : FetchRow :=
  { reading_uuid := r.reading_uuid, device_key := r.device_key,
    sensor_type := r.sensor_type, pin := r.pin, ts_utc := r.ts_utc,
    temperature_c := r.temperature_c, humidity_pct := r.humidity_pct,
    ok := r.ok, error_msg := r.error_msg, attempts := r.attempts }

/-- The rows selected by `sync.fetch_unsynced`:
`WHERE synced=0 AND dead=0 ORDER BY ts_epoch_utc ASC LIMIT ?`,
before column projection. -/
def select_unsynced (q : List QueueReading) (limit : Nat) : List QueueReading :=
  ((q.filter (fun r => !r.synced && !r.dead)).mergeSort
    (fun a b => decide (a.ts_epoch_utc ≤ b.ts_epoch_utc))).take limit

/-- `sync.fetch_unsynced conn limit`. -/
def fetch_unsynced (q : List QueueReading) (limit : Nat) : List FetchRow :=
  (select_unsynced q limit).map fetch_row

/-- One `UPDATE ... WHERE reading_uuid=?` executed by `sync.mark_synced`. -/
def mark_synced_row (now u : String) (r : QueueReading) : QueueReading :=
  if r.reading_uuid = u then
    { r with synced := true, last_attempt_utc := some now,
             attempts := r.attempts + 1 }
  else r

/-- `sync.mark_synced conn uuids` (`executemany` = one UPDATE per uuid;
the timestamp string `now` is a parameter). -/
def mark_synced (q : List QueueReading) (uuids : List String) (now : String) :
    List QueueReading :=
  uuids.foldl (fun acc u => acc.map (mark_synced_row now u)) q

/-- One `UPDATE ... WHERE reading_uuid=?` executed by `sync.mark_attempt_failed`. -/
def mark_attempt_failed_row (now u : String) (r : QueueReading) : QueueReading :=
  if r.reading_uuid = u then
    { r with last_attempt_utc := some now, attempts := r.attempts + 1 }
  else r

/-- `sync.mark_attempt_failed conn logger uuids reason`. -/
def mark_attempt_failed (q : List QueueReading) (uuids : List String) (now : String) :
    List QueueReading :=
  uuids.foldl (fun acc u => acc.map (mark_attempt_failed_row now u)) q

/-- The WHERE clause of the UPDATE in `sync.mark_dead_if_exceeded`. -/
def dead_eligible (max_attempts : Nat) (r : QueueReading) : Bool :=
  !r.synced && !r.dead && decide (max_attempts ≤ r.attempts)

/-- `sync.mark_dead_if_exceeded` (`MAX_SYNC_ATTEMPTS` passed as parameter).
The `Nat` component is `cur.rowcount`: the number of rows the UPDATE affected. -/
def mark_dead_if_exceeded (max_attempts : Nat) (q : List QueueReading) :
    List QueueReading × Nat :=
  (q.map (fun r => if dead_eligible max_attempts r then { r with dead := true } else r),
   (q.filter (dead_eligible max_attempts)).length)

/-- The WHERE clause of the DELETE in `sync.retention_cleanup`. -/
def retention_delete (cutoff_epoch : Int) (r : QueueReading) : Bool :=
  decide (r.ts_epoch_utc < cutoff_epoch) && (r.synced || r.dead)

/-- `sync.retention_cleanup` (`ENABLE_RETENTION` and the computed
`cutoff_epoch` passed as parameters).  The `Nat` component is `cur.rowcount`:
the number of rows the DELETE removed. -/
def retention_cleanup (enable : Bool) (cutoff_epoch : Int) (q : List QueueReading) :
    List QueueReading × Nat :=
  if enable then
    (q.filter (fun r => !retention_delete cutoff_epoch r),
     (q.filter (retention_delete cutoff_epoch)).length)
  else (q, 0)

/-- `sync.push_with_split cur batch`.  The remote bulk write
`push_batch_mysql` is modelled by the oracle `ok : List α → Bool`
(`true` = the INSERT succeeds, `false` = it raises `MySQLError`).
The result is the list of bulk-write calls attempted, in order, paired with
`true` for normal return and `false` for a propagated `MySQLError`.
When the recursive call on the first half propagates an error, the second half
is never attempted: the `raise` escapes the enclosing `except` block. -/
def push_with_split {α : Type} (ok : List α → Bool) (batch : List α) :
    List (List α) × Bool :=
  if _h1 : batch.length = 0 then ([], true)
  else if _h2 : ok batch then ([batch], true)
  else if _h3 : batch.length = 1 then ([batch], false)
  else
    let mid := batch.length / 2
    let left := push_with_split ok (batch.take mid)
    if left.2 then
      let right := push_with_split ok (batch.drop mid)
      (batch :: (left.1 ++ right.1), right.2)
    else
      (batch :: left.1, false)
termination_by batch.length
decreasing_by
  · simp only [List.length_take]
    omega
  · simp only [List.length_drop]
    omega

/-- The rows of a batch actually written by the remote store across a run of
`push_with_split`: the concatenation of the accepted bulk-write calls. -/
def delivered {α : Type} (ok : List α → Bool) (batch : List α) : List α :=
  ((push_with_split ok batch).1.filter ok).flatten

/-- The forwarder-wide backoff state of `sync.main`:
the local variables `mysql_fail_count` and `next_try`. -/
structure SchedState where
  mysql_fail_count : Nat
  next_try : ℚ
deriving DecidableEq

/-- `wait = min(300, 2 ** min(mysql_fail_count, 8))` — the backoff delay on the
`MySQLError` and generic `Exception` paths of `sync.main`. -/
def backoff_wait_remote (fail_count : Nat) : Nat := min 300 (2 ^ min fail_count 8)

/-- `wait = min(30, 2 ** min(mysql_fail_count, 5))` — the backoff delay on the
`sqlite3.OperationalError` path of `sync.main`. -/
def backoff_wait_local (fail_count : Nat) : Nat := min 30 (2 ^ min fail_count 5)

/-- How one attempted delivery cycle of `sync.main`'s loop body ends:
normal completion, a `MySQLError`, a `sqlite3.OperationalError`, or a generic
`Exception`. -/
inductive CycleOutcome where
  | success
  | remoteFail
  | localFail
  | otherFail
deriving DecidableEq

/-- The uuid list `uuids = [r[0] for r in rows]` built by `sync.main` from the
fetched rows. -/
def fetched_uuids (q : List QueueReading) (limit : Nat) : List String :=
  (fetch_unsynced q limit).map FetchRow.reading_uuid

/-- One pass of the delivery part of `sync.main`'s `while` loop (after the
daily-maintenance block, with `mysql_ready = True`): the backoff gate
`time.time() < next_try`, the fetch, and the `try`/`except` dispatch.
Returns the new queue, the new backoff state, and whether a remote delivery
cycle was actually started. -/
def forwarder_cycle (limit : Nat) (q : List QueueReading) (st : SchedState)
    (now : ℚ) (nowStr : String) (outcome : CycleOutcome) :
    List QueueReading × SchedState × Bool :=
  if now < st.next_try then (q, st, false)
  else
    let rows := fetch_unsynced q limit
    if rows.isEmpty then (q, st, false)
    else
      let uuids := rows.map FetchRow.reading_uuid
      match outcome with
      | .success => (mark_synced q uuids nowStr, ⟨0, now⟩, true)
      | .remoteFail =>
          (mark_attempt_failed q uuids nowStr,
           ⟨st.mysql_fail_count + 1,
            now + (backoff_wait_remote (st.mysql_fail_count + 1) : ℚ)⟩, true)
      | .localFail =>
          (q, ⟨st.mysql_fail_count + 1,
               now + (backoff_wait_local (st.mysql_fail_count + 1) : ℚ)⟩, true)
      | .otherFail =>
          (mark_attempt_failed q uuids nowStr,
           ⟨st.mysql_fail_count + 1,
            now + (backoff_wait_remote (st.mysql_fail_count + 1) : ℚ)⟩, true)

/-- Rows the producer may insert while a forwarder cycle is in flight
(between the fetch and the `mark_*` write-back): freshly created rows whose
uuids collide neither with the existing queue nor with each other
(`reading_uuid` is UNIQUE, and `collector` draws fresh uuid4 values). -/
def fresh_inserts (q new : List QueueReading) : Prop :=
  (∀ r ∈ new, r.synced = false ∧ r.dead = false ∧ r.attempts = 0) ∧
  (∀ r ∈ new, ∀ s ∈ q, r.reading_uuid ≠ s.reading_uuid) ∧
  (new.map QueueReading.reading_uuid).Nodup

/-- One atomic change of the shared queue, as performed by the producer
(`collector.main` → `insert_queue`) or the forwarder (`sync.main`):
a successful delivery cycle (`mark_synced` on the fetched uuids), a failed one
(`mark_attempt_failed` on the fetched uuids), the daily dead-letter sweep, or
retention pruning.  The cycle steps allow producer inserts `new` to land
between the fetch and the write-back. -/
inductive QStep : List QueueReading → List QueueReading → Prop
  | append (q : List QueueReading) (dk st pin u : String) (tse : Int) (tsu : String)
      (t h : Option ℚ) (ok : Bool) (em : Option String)
      (hfresh : ∀ r ∈ q, r.reading_uuid ≠ u) :
      QStep q (insert_queue q dk st pin u tse tsu t h ok em)
  | cycleSuccess (q new : List QueueReading) (limit : Nat) (now : String)
      (hnew : fresh_inserts q new) :
      QStep q (mark_synced (q ++ new) (fetched_uuids q limit) now)
  | cycleFailure (q new : List QueueReading) (limit : Nat) (now : String)
      (hnew : fresh_inserts q new) :
      QStep q (mark_attempt_failed (q ++ new) (fetched_uuids q limit) now)
  | sweep (q : List QueueReading) (max_attempts : Nat) :
      QStep q (mark_dead_if_exceeded max_attempts q).1
  | retention (q : List QueueReading) (enable : Bool) (cutoff : Int) :
      QStep q (retention_cleanup enable cutoff q).1

/-- Queue states reachable from the empty queue by producer and forwarder
operations. -/
def QReachable (q : List QueueReading) : Prop :=
  Relation.ReflTransGen QStep [] q

/-- Lookup of the (unique) row with a given `reading_uuid`. -/
def find_uuid (q : List QueueReading) (u : String) : Option QueueReading :=
  q.find? (fun r => r.reading_uuid == u)

/-- Internal well-formedness of a queue state: `reading_uuid` is UNIQUE, and
no row has both flag columns set. -/
def queue_inv (q : List QueueReading) : Prop :=
  (q.map QueueReading.reading_uuid).Nodup ∧
  ∀ r ∈ q, ¬(r.synced = true ∧ r.dead = true)

/-- Pointwise effect of `mark_synced` on a row, given the whole uuid list
(used to restate the `executemany` fold as a single map). -/
def mark_synced_fn (uuids : List String) (now : String) (r : QueueReading) :
    QueueReading :=
  if r.reading_uuid ∈ uuids then
    { r with synced := true, last_attempt_utc := some now,
             attempts := r.attempts + 1 }
  else r

/-- Pointwise effect of `mark_attempt_failed` on a row, given the whole uuid
list. -/
def mark_attempt_failed_fn (uuids : List String) (now : String) (r : QueueReading) :
    QueueReading :=
  if r.reading_uuid ∈ uuids then
    { r with last_attempt_utc := some now, attempts := r.attempts + 1 }
  else r

/-- The remote-store oracle of the poison-pill scenario: a bulk write is
accepted exactly when the batch does not contain the single malformed
record `bad`. -/
def accepts_without {α : Type} [DecidableEq α] (bad : α) (c : List α) : Bool :=
  decide (bad ∉ c)

/-- `c` is a contiguous slice of `l`, in `l`'s own order. -/
def contiguous_slice {α : Type} (c l : List α) : Prop :=
  ∃ l₁ l₂, l₁ ++ c ++ l₂ = l

/-- A fresh pending reading used in concrete scenarios. -/
def wit_rec (u : String) (e : Int) : QueueReading :=
  { reading_uuid := u, device_key := "dev", sensor_type := "DHT11", pin := "GPIO4",
    ts_epoch_utc := e, ts_utc := "t", temperature_c := none, humidity_pct := none,
    ok := true, error_msg := none, synced := false, dead := false, attempts := 0,
    last_attempt_utc := none }

/-- The queue of the `selectPending` scenario: three pending readings with
epochs 100, 200, 300, appended in that order by the producer. -/
def scenario_queue : List QueueReading :=
  insert_queue
    (insert_queue
      (insert_queue [] "dev" "DHT11" "GPIO4" "a" 100 "t" none none true none)
      "dev" "DHT11" "GPIO4" "b" 200 "t" none none true none)
    "dev" "DHT11" "GPIO4" "c" 300 "t" none none true none


/-! ### Basic facts about `push_with_split` -/

theorem pws_nil {α : Type} (ok : List α → Bool) :
    push_with_split ok [] = ([], true) := by
  rw [push_with_split]
  simp

theorem pws_accept {α : Type} (ok : List α → Bool) (batch : List α)
    (h2 : ok batch = true) (h1 : batch ≠ []) :
    push_with_split ok batch = ([batch], true) := by
  rw [push_with_split]
  rw [dif_neg (by simp [h1]), dif_pos h2]

theorem pws_one_fail {α : Type} (ok : List α → Bool) (a : α)
    (h : ok [a] = false) : push_with_split ok [a] = ([[a]], false) := by
  rw [push_with_split]
  simp [h]

theorem pws_split {α : Type} (ok : List α → Bool) (batch : List α)
    (h2 : ok batch = false) (h3 : 1 < batch.length) :
    push_with_split ok batch =
      (if (push_with_split ok (batch.take (batch.length / 2))).2 then
        ((batch :: ((push_with_split ok (batch.take (batch.length / 2))).1 ++
            (push_with_split ok (batch.drop (batch.length / 2))).1)),
         (push_with_split ok (batch.drop (batch.length / 2))).2)
      else (batch :: (push_with_split ok (batch.take (batch.length / 2))).1, false)) := by
  rw [push_with_split]
  rw [dif_neg (by omega), dif_neg (by simp [h2]), dif_neg (by omega)]

theorem contiguous_slice_self {α : Type} (l : List α) : contiguous_slice l l :=
  ⟨[], [], by simp⟩

theorem contiguous_slice_take {α : Type} (l : List α) (n : Nat) :
    contiguous_slice (l.take n) l :=
  ⟨[], l.drop n, by simp⟩

theorem contiguous_slice_drop {α : Type} (l : List α) (n : Nat) :
    contiguous_slice (l.drop n) l :=
  ⟨l.take n, [], by simp⟩

theorem contiguous_slice_trans {α : Type} {c m l : List α}
    (h1 : contiguous_slice c m) (h2 : contiguous_slice m l) :
    contiguous_slice c l := by
  obtain ⟨a, b, rfl⟩ := h1
  obtain ⟨a', b', rfl⟩ := h2
  exact ⟨a' ++ a, b ++ b', by simp⟩

/-- Every bulk-write call attempted by `push_with_split` is a contiguous slice
of the original batch: no reordering ever happens. -/
theorem pws_calls_slice {α : Type} (ok : List α → Bool) :
    ∀ (n : Nat) (batch : List α), batch.length = n →
      ∀ c ∈ (push_with_split ok batch).1, contiguous_slice c batch := by
  intro n
  induction n using Nat.strong_induction_on with
  | _ n ih =>
  intro batch hlen c hc
  by_cases h0 : batch.length = 0
  · rw [List.length_eq_zero.mp h0, pws_nil] at hc
    simp at hc
  by_cases hok : ok batch
  · rw [pws_accept ok batch hok (by intro h; exact h0 (by simp [h]))] at hc
    simp at hc
    exact hc ▸ contiguous_slice_self batch
  by_cases h1 : batch.length = 1
  · obtain ⟨a, ha⟩ := List.length_eq_one.mp h1
    subst ha
    rw [pws_one_fail ok a (by simpa using hok)] at hc
    simp at hc
    exact hc ▸ contiguous_slice_self [a]
  · have hgt : 1 < batch.length := by omega
    rw [pws_split ok batch (by simpa using hok) hgt] at hc
    have htl : (batch.take (batch.length / 2)).length < n := by
      simp only [List.length_take]; omega
    have hdl : (batch.drop (batch.length / 2)).length < n := by
      simp only [List.length_drop]; omega
    by_cases hfst : (push_with_split ok (batch.take (batch.length / 2))).2
    · rw [if_pos hfst] at hc
      simp only [List.mem_cons, List.mem_append] at hc
      rcases hc with rfl | hc | hc
      · exact contiguous_slice_self c
      · exact contiguous_slice_trans
          (ih _ htl _ rfl c hc) (contiguous_slice_take batch _)
      · exact contiguous_slice_trans
          (ih _ hdl _ rfl c hc) (contiguous_slice_drop batch _)
    · rw [if_neg hfst] at hc
      simp only [List.mem_cons] at hc
      rcases hc with rfl | hc
      · exact contiguous_slice_self c
      · exact contiguous_slice_trans
          (ih _ htl _ rfl c hc) (contiguous_slice_take batch _)

theorem accepts_without_false {α : Type} [DecidableEq α] {bad : α} {c : List α} :
    accepts_without bad c = false ↔ bad ∈ c := by
  simp [accepts_without]

theorem accepts_without_true {α : Type} [DecidableEq α] {bad : α} {c : List α} :
    accepts_without bad c = true ↔ bad ∉ c := by
  simp [accepts_without]

theorem getLast?_append_some {α : Type} {l₂ : List α} {x : α} (l₁ : List α)
    (h : l₂.getLast? = some x) : (l₁ ++ l₂).getLast? = some x := by
  rw [List.getLast?_append]
  simp [h]

theorem getLast?_cons_some {α : Type} {l : List α} {x : α} (a : α)
    (h : l.getLast? = some x) : (a :: l).getLast? = some x := by
  have e : a :: l = [a] ++ l := rfl
  rw [e]
  exact getLast?_append_some _ h

theorem pws_split_mid {α : Type} (ok : List α → Bool) (batch : List α) (mid : Nat)
    (hmid : mid = batch.length / 2) (h2 : ok batch = false) (h3 : 1 < batch.length) :
    push_with_split ok batch =
      (if (push_with_split ok (batch.take mid)).2 then
        ((batch :: ((push_with_split ok (batch.take mid)).1 ++
            (push_with_split ok (batch.drop mid)).1)),
         (push_with_split ok (batch.drop mid)).2)
      else (batch :: (push_with_split ok (batch.take mid)).1, false)) := by
  subst hmid
  exact pws_split ok batch h2 h3

/-- Full analysis of a `push_with_split` run with a single poison record `bad`
(batch `gs1 ++ bad :: gs2`, the remote accepting exactly the batches avoiding
`bad`): the error propagates, the successfully written rows are exactly `gs1`
(the rows preceding `bad`), the final bulk-write call is the singleton
`[bad]`, and at most `2⌈log₂ N⌉ + 1` bulk-write calls are made. -/
theorem pws_poison_aux {α : Type} [DecidableEq α] (bad : α) :
    ∀ (n : Nat) (gs1 gs2 : List α), (gs1 ++ bad :: gs2).length = n →
      bad ∉ gs1 → bad ∉ gs2 →
      (push_with_split (accepts_without bad) (gs1 ++ bad :: gs2)).2 = false ∧
      ((push_with_split (accepts_without bad) (gs1 ++ bad :: gs2)).1.filter
        (accepts_without bad)).flatten = gs1 ∧
      (push_with_split (accepts_without bad) (gs1 ++ bad :: gs2)).1.getLast?
        = some [bad] ∧
      (push_with_split (accepts_without bad) (gs1 ++ bad :: gs2)).1.length ≤
        2 * Nat.clog 2 n + 1 := by
  intro n
  induction n using Nat.strong_induction_on with
  | _ n ih =>
  intro gs1 gs2 hlen h1 h2
  have hmem : bad ∈ gs1 ++ bad :: gs2 := by simp
  have hok : accepts_without bad (gs1 ++ bad :: gs2) = false :=
    accepts_without_false.mpr hmem
  have hlen' : (gs1 ++ bad :: gs2).length = gs1.length + gs2.length + 1 := by
    simp
    omega
  by_cases hone : (gs1 ++ bad :: gs2).length = 1
  · have hg1 : gs1 = [] := List.length_eq_zero.mp (by omega)
    have hg2 : gs2 = [] := List.length_eq_zero.mp (by omega)
    subst hg1
    subst hg2
    have hn : n = 1 := by omega
    subst hn
    simp only [List.nil_append]
    rw [pws_one_fail _ bad (accepts_without_false.mpr (by simp))]
    refine ⟨rfl, ?_, by simp, by simp⟩
    simp [accepts_without_false.mpr (show bad ∈ [bad] by simp)]
  · have hgt : 1 < (gs1 ++ bad :: gs2).length := by omega
    have h2n : 2 ≤ n := by omega
    have hclog : Nat.clog 2 n = Nat.clog 2 ((n + 1) / 2) + 1 := by
      rw [Nat.clog_of_two_le (by norm_num) h2n]
      norm_num
    obtain ⟨K, hK⟩ : ∃ K, K = (gs1 ++ bad :: gs2).length / 2 := ⟨_, rfl⟩
    by_cases hcase : K ≤ gs1.length
    · -- the poison record lies in the second half
      have htake : (gs1 ++ bad :: gs2).take K = gs1.take K :=
        List.take_append_of_le_length hcase
      have hdrop : (gs1 ++ bad :: gs2).drop K = gs1.drop K ++ bad :: gs2 :=
        List.drop_append_of_le_length hcase
      have hokt : accepts_without bad (gs1.take K) = true :=
        accepts_without_true.mpr (fun hm => h1 (List.mem_of_mem_take hm))
      have htne : gs1.take K ≠ [] := by
        intro h
        have := congrArg List.length h
        simp only [List.length_take, List.length_nil] at this
        omega
      have hleft := pws_accept _ _ hokt htne
      have hdlen : (gs1.drop K ++ bad :: gs2).length = n - K := by
        simp only [List.length_append, List.length_drop, List.length_cons]
        omega
      have hdsub : bad ∉ gs1.drop K :=
        fun hm => h1 (List.drop_subset _ _ hm)
      obtain ⟨ihF, ihD, ihL, ihLen⟩ :=
        ih (n - K) (by omega) (gs1.drop K) gs2 hdlen hdsub h2
      have hres : push_with_split (accepts_without bad) (gs1 ++ bad :: gs2) =
          ((gs1 ++ bad :: gs2) ::
            ([gs1.take K] ++
             (push_with_split (accepts_without bad) (gs1.drop K ++ bad :: gs2)).1),
           (push_with_split (accepts_without bad) (gs1.drop K ++ bad :: gs2)).2) := by
        rw [pws_split_mid _ _ K hK hok hgt, htake, hdrop, hleft]
        simp
      rw [hres]
      refine ⟨ihF, ?_, ?_, ?_⟩
      · simp only [List.filter_cons, List.filter_append, hok, hokt]
        simp only [Bool.false_eq_true, if_false, if_true, List.filter_nil,
          List.flatten_append, List.flatten_cons, List.flatten_nil,
          List.nil_append, List.append_nil, ihD]
        simp [List.take_append_drop]
      · exact getLast?_cons_some _ (getLast?_append_some _ ihL)
      · simp only [List.length_cons, List.length_append, List.length_singleton,
          List.length_nil]
        have heq : n - K = (n + 1) / 2 := by omega
        rw [heq] at ihLen
        omega
    · -- the poison record lies in the first half
      have hkmid : gs1.length < K := by omega
      obtain ⟨m, hm⟩ : ∃ m, K - gs1.length = m + 1 :=
        ⟨K - gs1.length - 1, by omega⟩
      have htake : (gs1 ++ bad :: gs2).take K = gs1 ++ bad :: gs2.take m := by
        rw [List.take_append_eq_append_take, List.take_of_length_le (by omega), hm,
          List.take_succ_cons]
      have htlen : (gs1 ++ bad :: gs2.take m).length = K := by
        have h' := congrArg List.length htake
        simp only [List.length_take] at h'
        rw [← h']
        simp only [List.length_append, List.length_cons, List.length_take]
        omega
      have htsub : bad ∉ gs2.take m := fun hm' => h2 (List.take_subset _ _ hm')
      obtain ⟨ihF, ihD, ihL, ihLen⟩ :=
        ih K (by omega) gs1 (gs2.take m) htlen h1 htsub
      have hres : push_with_split (accepts_without bad) (gs1 ++ bad :: gs2) =
          ((gs1 ++ bad :: gs2) ::
            (push_with_split (accepts_without bad) (gs1 ++ bad :: gs2.take m)).1,
           false) := by
        rw [pws_split_mid _ _ K hK hok hgt, htake, ihF]
        simp
      rw [hres]
      refine ⟨rfl, ?_, getLast?_cons_some _ ihL, ?_⟩
      · simp only [List.filter_cons, hok]
        exact ihD
      · simp only [List.length_cons]
        have hmono : Nat.clog 2 K ≤ Nat.clog 2 ((n + 1) / 2) :=
          Nat.clog_mono_right 2 (by omega)
        omega

/-- C3 (amended): when the bulk write of `batch` is rejected and `batch` has
more than one record, `push_with_split` splits the batch at the midpoint (the
two halves concatenating to the original batch) and recursively retries the
first half; the second half is retried only when the first half's retry does
not propagate a rejection — if the first half propagates, the whole call
propagates without attempting the second half; when a batch of size one is
rejected, the rejection propagates to the caller; and every bulk-write call
ever offered is a contiguous slice of the original batch (no reordering). -/
theorem C3_split_retry_semantics {α : Type} (ok : List α → Bool) :
    (∀ batch : List α, ok batch = false → 1 < batch.length →
      (batch.take (batch.length / 2) ++ batch.drop (batch.length / 2) = batch ∧
       ((push_with_split ok (batch.take (batch.length / 2))).2 = true →
         push_with_split ok batch =
           (batch :: ((push_with_split ok (batch.take (batch.length / 2))).1 ++
                      (push_with_split ok (batch.drop (batch.length / 2))).1),
            (push_with_split ok (batch.drop (batch.length / 2))).2)) ∧
       ((push_with_split ok (batch.take (batch.length / 2))).2 = false →
         push_with_split ok batch =
           (batch :: (push_with_split ok (batch.take (batch.length / 2))).1,
            false)))) ∧
    (∀ a : α, ok [a] = false → push_with_split ok [a] = ([[a]], false)) ∧
    (∀ batch : List α, ∀ c ∈ (push_with_split ok batch).1,
      contiguous_slice c batch) := by
  refine ⟨fun batch hok hgt => ⟨List.take_append_drop _ _, ?_, ?_⟩,
          fun a h => pws_one_fail ok a h,
          fun batch => pws_calls_slice ok batch.length batch rfl⟩
  · intro hfst
    rw [pws_split ok batch hok hgt, if_pos hfst]
  · intro hfst
    rw [pws_split ok batch hok hgt, if_neg (by simp [hfst])]

/-- C3 counterexample: with batch `[0, 1]` and a remote store rejecting every
batch containing record `0`, the code attempts the bulk-write calls
`[0, 1]` and `[0]` only — the second half `[1]` is never retried, refuting
"recursively retries each half independently". -/
theorem C3_counterexample :
    push_with_split (accepts_without (0 : ℕ)) [0, 1] = ([[0, 1], [0]], false) ∧
    [1] ∉ (push_with_split (accepts_without (0 : ℕ)) [0, 1]).1 := by
  have ev1 : push_with_split (accepts_without (0 : ℕ)) [0] = ([[0]], false) :=
    pws_one_fail _ _ (by decide)
  have ev2 : push_with_split (accepts_without (0 : ℕ)) [0, 1]
      = ([[0, 1], [0]], false) := by
    rw [pws_split_mid _ _ 1 (by decide) (by decide) (by decide)]
    rw [show ([0, 1] : List ℕ).take 1 = [0] from rfl, ev1]
    simp
  exact ⟨ev2, by rw [ev2]; decide⟩

/-- Witness for `C3_split_retry_semantics` at a concrete input: remote store
rejecting batches containing `1`, batch `[0, 1]` (first half succeeds, second
half is then retried), singleton `[1]` rejection, and the call `[0]` being a
contiguous slice of `[0, 1]`. -/
theorem C3_witness :
    (([0, 1] : List ℕ).take 1 ++ ([0, 1] : List ℕ).drop 1 = [0, 1] ∧
     push_with_split (accepts_without (1 : ℕ)) [0, 1] =
       ([0, 1] :: ((push_with_split (accepts_without (1 : ℕ)) [0]).1 ++
                   (push_with_split (accepts_without (1 : ℕ)) [1]).1),
        (push_with_split (accepts_without (1 : ℕ)) [1]).2)) ∧
    push_with_split (accepts_without (1 : ℕ)) [1] = ([[1]], false) ∧
    contiguous_slice [0] ([0, 1] : List ℕ) := by
  have h := C3_split_retry_semantics (accepts_without (1 : ℕ))
  have evL : push_with_split (accepts_without (1 : ℕ)) [0] = ([[0]], true) :=
    pws_accept _ _ (by decide) (by decide)
  have evR : push_with_split (accepts_without (1 : ℕ)) [1] = ([[1]], false) :=
    pws_one_fail _ _ (by decide)
  have p1 := h.1 [0, 1] (by decide) (by decide)
  have p12 := p1.2.1 (by rw [show (([0, 1] : List ℕ).take (([0, 1] : List ℕ).length / 2)) = [0] from rfl, evL])
  have evFull : push_with_split (accepts_without (1 : ℕ)) [0, 1]
      = ([[0, 1], [0], [1]], false) := by
    rw [p12]
    rw [show (([0, 1] : List ℕ).take (([0, 1] : List ℕ).length / 2)) = [0] from rfl,
        show (([0, 1] : List ℕ).drop (([0, 1] : List ℕ).length / 2)) = [1] from rfl,
        evL, evR]
    rfl
  exact ⟨⟨p1.1, p12⟩, h.2.1 1 (by decide),
         h.2.2 [0, 1] [0] (by rw [evFull]; decide)⟩

/-- C4 (amended): for a batch of `N` records containing exactly one record
`bad` rejected by the remote store (every bulk write of a sub-batch avoiding
it succeeding), `push_with_split` propagates the rejection to the caller, the
rows successfully written are exactly the records that precede the malformed
one (so all other `N − 1` records only when the malformed record is last),
the final bulk-write call — the one whose rejection propagates — is the
singleton containing the malformed record, and at most `2⌈log₂ N⌉ + 1` remote
bulk-write calls are made. -/
theorem C4_poison_pill {α : Type} [DecidableEq α] (bad : α) (gs1 gs2 : List α)
    (h1 : bad ∉ gs1) (h2 : bad ∉ gs2) :
    (push_with_split (accepts_without bad) (gs1 ++ bad :: gs2)).2 = false ∧
    delivered (accepts_without bad) (gs1 ++ bad :: gs2) = gs1 ∧
    (push_with_split (accepts_without bad) (gs1 ++ bad :: gs2)).1.getLast?
      = some [bad] ∧
    (push_with_split (accepts_without bad) (gs1 ++ bad :: gs2)).1.length ≤
      2 * Nat.clog 2 (gs1 ++ bad :: gs2).length + 1 :=
  pws_poison_aux bad (gs1 ++ bad :: gs2).length gs1 gs2 rfl h1 h2

/-- C4 counterexample: (i) with batch `[10, 20]` and record `10` rejected,
nothing at all is delivered (the claim promises the other `N − 1 = 1` records
are delivered); (ii) with batch `[1, 2, 3, 0]` and record `0` rejected, the
code makes 5 remote bulk-write calls, exceeding the claimed bound
`⌈log₂ 4⌉ + 1 = 3`. -/
theorem C4_counterexample :
    delivered (accepts_without (10 : ℕ)) [10, 20] = [] ∧
    (push_with_split (accepts_without (0 : ℕ)) [1, 2, 3, 0]).1.length = 5 ∧
    Nat.clog 2 ([1, 2, 3, 0] : List ℕ).length + 1 < 5 := by
  have ev1 : push_with_split (accepts_without (10 : ℕ)) [10] = ([[10]], false) :=
    pws_one_fail _ _ (by decide)
  have ev2 : push_with_split (accepts_without (10 : ℕ)) [10, 20]
      = ([[10, 20], [10]], false) := by
    rw [pws_split_mid _ _ 1 (by decide) (by decide) (by decide)]
    rw [show ([10, 20] : List ℕ).take 1 = [10] from rfl, ev1]
    simp
  have ea : push_with_split (accepts_without (0 : ℕ)) [0] = ([[0]], false) :=
    pws_one_fail _ _ (by decide)
  have eb : push_with_split (accepts_without (0 : ℕ)) [3] = ([[3]], true) :=
    pws_accept _ _ (by decide) (by decide)
  have ec : push_with_split (accepts_without (0 : ℕ)) [3, 0]
      = ([[3, 0], [3], [0]], false) := by
    rw [pws_split_mid _ _ 1 (by decide) (by decide) (by decide)]
    rw [show ([3, 0] : List ℕ).take 1 = [3] from rfl,
        show ([3, 0] : List ℕ).drop 1 = [0] from rfl, eb, ea]
    simp
  have ed : push_with_split (accepts_without (0 : ℕ)) [1, 2] = ([[1, 2]], true) :=
    pws_accept _ _ (by decide) (by decide)
  have ee : push_with_split (accepts_without (0 : ℕ)) [1, 2, 3, 0]
      = ([[1, 2, 3, 0], [1, 2], [3, 0], [3], [0]], false) := by
    rw [pws_split_mid _ _ 2 (by decide) (by decide) (by decide)]
    rw [show ([1, 2, 3, 0] : List ℕ).take 2 = [1, 2] from rfl,
        show ([1, 2, 3, 0] : List ℕ).drop 2 = [3, 0] from rfl, ed, ec]
    simp
  have eclog2 : Nat.clog 2 2 = 1 := by
    rw [Nat.clog_of_two_le (by norm_num) (by norm_num)]
    norm_num
  have eclog4 : Nat.clog 2 4 = 2 := by
    rw [Nat.clog_of_two_le (by norm_num) (by norm_num)]
    norm_num [eclog2]
  refine ⟨?_, by rw [ee]; rfl, ?_⟩
  · show ((push_with_split (accepts_without (10 : ℕ)) [10, 20]).1.filter
      (accepts_without 10)).flatten = []
    rw [ev2]
    decide
  · simp only [List.length_cons, List.length_nil, eclog4]
    omega

/-- Witness for `C4_poison_pill` at the concrete batch `[1, 7, 2]` with
malformed record `7`. -/
theorem C4_witness :
    (push_with_split (accepts_without (7 : ℕ)) ([1] ++ 7 :: [2])).2 = false ∧
    delivered (accepts_without (7 : ℕ)) ([1] ++ 7 :: [2]) = [1] ∧
    (push_with_split (accepts_without (7 : ℕ)) ([1] ++ 7 :: [2])).1.getLast?
      = some [7] ∧
    (push_with_split (accepts_without (7 : ℕ)) ([1] ++ 7 :: [2])).1.length ≤
      2 * Nat.clog 2 ([1] ++ 7 :: [2] : List ℕ).length + 1 :=
  C4_poison_pill 7 [1] [2] (by decide) (by decide)

/-! ### The batch selector (`fetch_unsynced`) -/

theorem select_unsynced_mem {q : List QueueReading} {limit : Nat}
    {r : QueueReading} (h : r ∈ select_unsynced q limit) :
    r ∈ q ∧ r.synced = false ∧ r.dead = false := by
  unfold select_unsynced at h
  have h1 := List.mem_of_mem_take h
  rw [List.mem_mergeSort, List.mem_filter] at h1
  refine ⟨h1.1, ?_, ?_⟩ <;> simp_all

theorem select_unsynced_sorted (q : List QueueReading) (limit : Nat) :
    (select_unsynced q limit).Pairwise
      (fun a b => a.ts_epoch_utc ≤ b.ts_epoch_utc) := by
  unfold select_unsynced
  have hs := @List.sorted_mergeSort QueueReading
    (fun a b => decide (a.ts_epoch_utc ≤ b.ts_epoch_utc))
    (by intro a b c hab hbc; simp at hab hbc ⊢; omega)
    (by intro a b; simp; omega)
    (q.filter (fun r => !r.synced && !r.dead))
  have h2 := hs.sublist (List.take_sublist limit _)
  exact h2.imp (by intro a b h; simpa using h)

theorem select_unsynced_scenario :
    select_unsynced scenario_queue 2 = [wit_rec "a" 100, wit_rec "b" 200] := by
  unfold select_unsynced
  have hq : scenario_queue
      = [wit_rec "a" 100, wit_rec "b" 200, wit_rec "c" 300] := rfl
  rw [hq]
  have hfil : [wit_rec "a" 100, wit_rec "b" 200, wit_rec "c" 300].filter
      (fun r => !r.synced && !r.dead)
      = [wit_rec "a" 100, wit_rec "b" 200, wit_rec "c" 300] := rfl
  rw [hfil, List.mergeSort_of_sorted (by decide)]
  rfl

/-- C2: `fetch_unsynced conn limit` selects only records with
`synced=0` and `dead=0`, returns at most `limit` of them, orders them by
`ts_epoch_utc` ascending; and with three pending readings of epochs
`[100, 200, 300]` in the queue, a call with limit 2 returns the records with
epochs 100 and 200 in that order. -/
theorem C2_fetch_unsynced :
    (∀ (q : List QueueReading) (limit : Nat), ∀ r ∈ select_unsynced q limit,
      r ∈ q ∧ r.synced = false ∧ r.dead = false) ∧
    (∀ (q : List QueueReading) (limit : Nat),
      fetch_unsynced q limit = (select_unsynced q limit).map fetch_row ∧
      (fetch_unsynced q limit).length ≤ limit) ∧
    (∀ (q : List QueueReading) (limit : Nat),
      (select_unsynced q limit).Pairwise
        (fun a b => a.ts_epoch_utc ≤ b.ts_epoch_utc)) ∧
    ((select_unsynced scenario_queue 2).map QueueReading.ts_epoch_utc
        = [100, 200] ∧
     (select_unsynced scenario_queue 2).map QueueReading.reading_uuid
        = ["a", "b"]) := by
  refine ⟨fun q limit r h => select_unsynced_mem h,
          fun q limit => ⟨rfl, ?_⟩,
          select_unsynced_sorted,
          by rw [select_unsynced_scenario]; decide,
          by rw [select_unsynced_scenario]; decide⟩
  show ((select_unsynced q limit).map fetch_row).length ≤ limit
  rw [List.length_map]
  unfold select_unsynced
  simp [List.length_take]

/-- Witness for `C2_fetch_unsynced` at a concrete input: the record with epoch
100 selected from the scenario queue is a pending record of that queue. -/
theorem C2_witness :
    wit_rec "a" 100 ∈ scenario_queue ∧
    (wit_rec "a" 100).synced = false ∧ (wit_rec "a" 100).dead = false :=
  C2_fetch_unsynced.1 scenario_queue 2 (wit_rec "a" 100)
    (by rw [select_unsynced_scenario]; decide)

/-! ### The mark operations as pointwise maps -/

theorem mark_synced_eq_map :
    ∀ (uuids : List String) (now : String) (q : List QueueReading),
      uuids.Nodup → mark_synced q uuids now = q.map (mark_synced_fn uuids now) := by
  intro uuids
  induction uuids with
  | nil =>
    intro now q _
    have hmap : q.map (mark_synced_fn [] now) = q := by
      induction q with
      | nil => rfl
      | cons a q ihq => simp [mark_synced_fn, ihq]
    exact hmap.symm
  | cons u us ih =>
    intro now q h
    obtain ⟨hu, hus⟩ := List.nodup_cons.mp h
    have step : mark_synced q (u :: us) now
        = mark_synced (q.map (mark_synced_row now u)) us now := rfl
    rw [step, ih now _ hus, List.map_map]
    apply List.map_congr_left
    intro r _
    by_cases hr : r.reading_uuid = u
    · simp [Function.comp, mark_synced_row, mark_synced_fn, hr, hu]
    · simp [Function.comp, mark_synced_row, mark_synced_fn, hr]

theorem mark_attempt_failed_eq_map :
    ∀ (uuids : List String) (now : String) (q : List QueueReading),
      uuids.Nodup →
      mark_attempt_failed q uuids now = q.map (mark_attempt_failed_fn uuids now) := by
  intro uuids
  induction uuids with
  | nil =>
    intro now q _
    have hmap : q.map (mark_attempt_failed_fn [] now) = q := by
      induction q with
      | nil => rfl
      | cons a q ihq => simp [mark_attempt_failed_fn, ihq]
    exact hmap.symm
  | cons u us ih =>
    intro now q h
    obtain ⟨hu, hus⟩ := List.nodup_cons.mp h
    have step : mark_attempt_failed q (u :: us) now
        = mark_attempt_failed (q.map (mark_attempt_failed_row now u)) us now := rfl
    rw [step, ih now _ hus, List.map_map]
    apply List.map_congr_left
    intro r _
    by_cases hr : r.reading_uuid = u
    · simp [Function.comp, mark_attempt_failed_row, mark_attempt_failed_fn, hr, hu]
    · simp [Function.comp, mark_attempt_failed_row, mark_attempt_failed_fn, hr]

/-- C8: `mark_synced(uuids)` and `mark_attempt_failed(uuids)` each increment
`attempts` by exactly 1 and set `last_attempt_utc` for every record whose
`reading_uuid` is in the given (duplicate-free) list — `mark_synced` also sets
`synced=1` — and leave every record not in the list unchanged. -/
theorem C8_mark_ops (q : List QueueReading) (uuids : List String) (now : String)
    (h : uuids.Nodup) :
    (mark_synced q uuids now).length = q.length ∧
    (mark_attempt_failed q uuids now).length = q.length ∧
    (∀ i, ∀ hi : i < q.length, (q.get ⟨i, hi⟩).reading_uuid ∈ uuids →
      (mark_synced q uuids now)[i]? =
        some { q.get ⟨i, hi⟩ with
               synced := true, last_attempt_utc := some now,
               attempts := (q.get ⟨i, hi⟩).attempts + 1 } ∧
      (mark_attempt_failed q uuids now)[i]? =
        some { q.get ⟨i, hi⟩ with
               last_attempt_utc := some now,
               attempts := (q.get ⟨i, hi⟩).attempts + 1 }) ∧
    (∀ i, ∀ hi : i < q.length, (q.get ⟨i, hi⟩).reading_uuid ∉ uuids →
      (mark_synced q uuids now)[i]? = some (q.get ⟨i, hi⟩) ∧
      (mark_attempt_failed q uuids now)[i]? = some (q.get ⟨i, hi⟩)) := by
  rw [mark_synced_eq_map uuids now q h, mark_attempt_failed_eq_map uuids now q h]
  refine ⟨by simp, by simp, ?_, ?_⟩
  · intro i hi hmem
    simp only [List.get_eq_getElem] at hmem ⊢
    rw [List.getElem?_map, List.getElem?_map, List.getElem?_eq_getElem hi]
    simp [mark_synced_fn, mark_attempt_failed_fn, hmem]
  · intro i hi hmem
    simp only [List.get_eq_getElem] at hmem ⊢
    rw [List.getElem?_map, List.getElem?_map, List.getElem?_eq_getElem hi]
    simp [mark_synced_fn, mark_attempt_failed_fn, hmem]

/-- Witness for `C8_mark_ops` at a concrete queue of two pending records and
uuid list `["a"]`. -/
theorem C8_witness :
    ((mark_synced [wit_rec "a" 100, wit_rec "b" 200] ["a"] "n")[0]? =
       some { wit_rec "a" 100 with
              synced := true, last_attempt_utc := some "n",
              attempts := (wit_rec "a" 100).attempts + 1 } ∧
     (mark_attempt_failed [wit_rec "a" 100, wit_rec "b" 200] ["a"] "n")[0]? =
       some { wit_rec "a" 100 with
              last_attempt_utc := some "n",
              attempts := (wit_rec "a" 100).attempts + 1 }) ∧
    ((mark_synced [wit_rec "a" 100, wit_rec "b" 200] ["a"] "n")[1]? =
       some (wit_rec "b" 200) ∧
     (mark_attempt_failed [wit_rec "a" 100, wit_rec "b" 200] ["a"] "n")[1]? =
       some (wit_rec "b" 200)) :=
  ⟨(C8_mark_ops [wit_rec "a" 100, wit_rec "b" 200] ["a"] "n" (by decide)).2.2.1
     0 (by decide) (by decide),
   (C8_mark_ops [wit_rec "a" 100, wit_rec "b" 200] ["a"] "n" (by decide)).2.2.2
     1 (by decide) (by decide)⟩

/-! ### The maintenance sweeper -/

theorem length_filter_partition (p : QueueReading → Bool) (q : List QueueReading) :
    (q.filter (fun r => !p r)).length + (q.filter p).length = q.length := by
  induction q with
  | nil => simp
  | cons a q ih =>
    by_cases h : p a <;> simp [List.filter_cons, h] <;> omega

/-- C6: the sweep `mark_dead_if_exceeded` promotes to `dead` exactly the
records with `synced=0, dead=0, attempts ≥ max_attempts`, reports the affected
row count, leaves unchanged every pending record with
`attempts = max_attempts − 1`, and records so promoted are excluded from all
subsequent `fetch_unsynced` selections. -/
theorem C6_mark_dead (max_attempts : Nat) (q : List QueueReading) :
    (mark_dead_if_exceeded max_attempts q).1.length = q.length ∧
    (mark_dead_if_exceeded max_attempts q).2 =
      (q.filter (fun r => !r.synced && !r.dead &&
        decide (max_attempts ≤ r.attempts))).length ∧
    (∀ i, ∀ hi : i < q.length,
      (q.get ⟨i, hi⟩).synced = false → (q.get ⟨i, hi⟩).dead = false →
      max_attempts ≤ (q.get ⟨i, hi⟩).attempts →
      (mark_dead_if_exceeded max_attempts q).1[i]? =
        some { q.get ⟨i, hi⟩ with dead := true }) ∧
    (∀ i, ∀ hi : i < q.length,
      ¬((q.get ⟨i, hi⟩).synced = false ∧ (q.get ⟨i, hi⟩).dead = false ∧
        max_attempts ≤ (q.get ⟨i, hi⟩).attempts) →
      (mark_dead_if_exceeded max_attempts q).1[i]? = some (q.get ⟨i, hi⟩)) ∧
    (∀ i, ∀ hi : i < q.length,
      (q.get ⟨i, hi⟩).synced = false → (q.get ⟨i, hi⟩).dead = false →
      (q.get ⟨i, hi⟩).attempts + 1 = max_attempts →
      (mark_dead_if_exceeded max_attempts q).1[i]? = some (q.get ⟨i, hi⟩)) ∧
    (∀ limit : Nat,
      ∀ r ∈ select_unsynced (mark_dead_if_exceeded max_attempts q).1 limit,
        r.attempts < max_attempts) := by
  refine ⟨by simp [mark_dead_if_exceeded], rfl, ?_, ?_, ?_, ?_⟩
  · intro i hi hs hd ha
    simp only [List.get_eq_getElem] at hs hd ha ⊢
    show (q.map _)[i]? = _
    rw [List.getElem?_map, List.getElem?_eq_getElem hi]
    simp [dead_eligible, hs, hd, ha]
  · intro i hi hcond
    simp only [List.get_eq_getElem] at hcond ⊢
    show (q.map _)[i]? = _
    rw [List.getElem?_map, List.getElem?_eq_getElem hi]
    have : dead_eligible max_attempts q[i] = false := by
      simp only [dead_eligible]
      by_cases h1 : q[i].synced = false
      · by_cases h2 : q[i].dead = false
        · have h3 : ¬(max_attempts ≤ q[i].attempts) := fun hc => hcond ⟨h1, h2, hc⟩
          simp [h1, h2, h3]
        · have h2' : q[i].dead = true := by simpa using h2
          simp [h2']
      · have h1' : q[i].synced = true := by simpa using h1
        simp [h1']
    simp [this]
  · intro i hi hs hd ha
    simp only [List.get_eq_getElem] at hs hd ha ⊢
    show (q.map _)[i]? = _
    rw [List.getElem?_map, List.getElem?_eq_getElem hi]
    have : dead_eligible max_attempts q[i] = false := by
      simp [dead_eligible, hs, hd]
      omega
    simp [this]
  · intro limit r hr
    obtain ⟨hrq, hs, hd⟩ := select_unsynced_mem hr
    simp only [mark_dead_if_exceeded, List.mem_map] at hrq
    obtain ⟨s, _, rfl⟩ := hrq
    by_cases hel : dead_eligible max_attempts s
    · rw [if_pos hel] at hd hs ⊢
      simp at hd
    · rw [if_neg hel] at hd hs ⊢
      simp only [dead_eligible, Bool.and_eq_true, Bool.not_eq_true',
        decide_eq_true_eq] at hel
      by_contra hc
      exact hel ⟨⟨hs, hd⟩, by omega⟩

/-- Witness for `C6_mark_dead` with `max_attempts = 3` and a queue holding a
pending record with 3 attempts (promoted) and one with 2 attempts (left
alone and still below the threshold afterwards). -/
theorem C6_witness :
    (mark_dead_if_exceeded 3
        [{ wit_rec "a" 100 with attempts := 3 },
         { wit_rec "b" 200 with attempts := 2 }]).1[0]? =
      some { { wit_rec "a" 100 with attempts := 3 } with dead := true } ∧
    (mark_dead_if_exceeded 3
        [{ wit_rec "a" 100 with attempts := 3 },
         { wit_rec "b" 200 with attempts := 2 }]).1[1]? =
      some { wit_rec "b" 200 with attempts := 2 } :=
  ⟨(C6_mark_dead 3 _).2.2.1 0 (by decide) (by decide) (by decide) (by decide),
   (C6_mark_dead 3 _).2.2.2.2.1 1 (by decide) (by decide) (by decide) (by decide)⟩

/-! ### Retention pruning -/

/-- C7: `retention_cleanup` (when retention is enabled) deletes exactly the
records with `ts_epoch_utc` strictly below the cutoff that are `synced` or
`dead`, reports the number of rows deleted (kept + deleted = total), and never
deletes a record with `synced=0` and `dead=0` regardless of age. -/
theorem C7_retention (cutoff : Int) (q : List QueueReading) :
    (∀ r : QueueReading, r ∈ (retention_cleanup true cutoff q).1 ↔
      (r ∈ q ∧ ¬(r.ts_epoch_utc < cutoff ∧ (r.synced = true ∨ r.dead = true)))) ∧
    (retention_cleanup true cutoff q).2 =
      (q.filter (fun r =>
        decide (r.ts_epoch_utc < cutoff) && (r.synced || r.dead))).length ∧
    (∀ r ∈ q, r.synced = false → r.dead = false →
      r ∈ (retention_cleanup true cutoff q).1) ∧
    q.length =
      (retention_cleanup true cutoff q).1.length +
      (retention_cleanup true cutoff q).2 := by
  have hmem : ∀ r : QueueReading, r ∈ (retention_cleanup true cutoff q).1 ↔
      (r ∈ q ∧ ¬(r.ts_epoch_utc < cutoff ∧ (r.synced = true ∨ r.dead = true))) := by
    intro r
    simp only [retention_cleanup, if_pos, List.mem_filter, retention_delete]
    constructor
    · rintro ⟨h1, h2⟩
      refine ⟨h1, ?_⟩
      rintro ⟨hts, hflag⟩
      simp only [Bool.not_eq_true', Bool.and_eq_false_iff, decide_eq_false_iff_not,
        not_lt, Bool.or_eq_false_iff] at h2
      rcases h2 with h2 | ⟨h2a, h2b⟩
      · omega
      · rcases hflag with hf | hf
        · rw [hf] at h2a
          exact absurd h2a (by simp)
        · rw [hf] at h2b
          exact absurd h2b (by simp)
    · rintro ⟨h1, h2⟩
      refine ⟨h1, ?_⟩
      simp only [Bool.not_eq_true', Bool.and_eq_false_iff, decide_eq_false_iff_not,
        not_lt, Bool.or_eq_false_iff]
      by_cases hts : r.ts_epoch_utc < cutoff
      · right
        constructor
        · by_contra hs
          exact h2 ⟨hts, Or.inl (by simpa using hs)⟩
        · by_contra hd
          exact h2 ⟨hts, Or.inr (by simpa using hd)⟩
      · left
        omega
  refine ⟨hmem, rfl, ?_, ?_⟩
  · intro r hr hs hd
    rw [hmem r]
    refine ⟨hr, ?_⟩
    rintro ⟨-, hf | hf⟩
    · rw [hs] at hf
      cases hf
    · rw [hd] at hf
      cases hf
  · show q.length = (q.filter (fun r => !retention_delete cutoff r)).length +
      (q.filter (retention_delete cutoff)).length
    rw [← length_filter_partition (retention_delete cutoff) q]

/-- Witness for `C7_retention` at cutoff 50: an old `synced` record is
deleted, an equally old `pending` record is kept. -/
theorem C7_witness :
    wit_rec "p" 10 ∈
      (retention_cleanup true 50
        [{ wit_rec "s" 10 with synced := true }, wit_rec "p" 10]).1 ∧
    ¬({ wit_rec "s" 10 with synced := true } ∈
      (retention_cleanup true 50
        [{ wit_rec "s" 10 with synced := true }, wit_rec "p" 10]).1) :=
  ⟨(C7_retention 50 _).2.2.1 (wit_rec "p" 10) (by decide) (by decide) (by decide),
   fun hc => by
     have h := ((C7_retention 50
       [{ wit_rec "s" 10 with synced := true }, wit_rec "p" 10]).1
         { wit_rec "s" 10 with synced := true }).mp hc
     exact h.2 (by decide)⟩

/-! ### The retry/backoff scheduler -/

theorem fetch_unsynced_single :
    fetch_unsynced [wit_rec "a" 100] 5 = [fetch_row (wit_rec "a" 100)] := by
  unfold fetch_unsynced select_unsynced
  rw [show ([wit_rec "a" 100].filter fun r => !r.synced && !r.dead)
      = [wit_rec "a" 100] from rfl, List.mergeSort_singleton]
  rfl

/-- C5: on a failed remote delivery cycle the consecutive-failure counter
increments by 1 and `next_try` becomes `now + min(300, 2^min(counter, 8))`
(counter already incremented); on a successful cycle the counter resets to 0
and `next_try` resets to `now`; no remote delivery cycle starts before
`next_try`; and three consecutive remote failures starting from counter 0
produce delays 2^1, 2^2, 2^3 seconds. -/
theorem C5_backoff_schedule :
    (∀ (limit : Nat) (q : List QueueReading) (st : SchedState) (now : ℚ)
       (ns : String),
      st.next_try ≤ now → fetch_unsynced q limit ≠ [] →
      forwarder_cycle limit q st now ns CycleOutcome.remoteFail =
        (mark_attempt_failed q ((fetch_unsynced q limit).map FetchRow.reading_uuid) ns,
         { mysql_fail_count := st.mysql_fail_count + 1,
           next_try := now +
             ((min 300 (2 ^ min (st.mysql_fail_count + 1) 8) : ℕ) : ℚ) },
         true)) ∧
    (∀ (limit : Nat) (q : List QueueReading) (st : SchedState) (now : ℚ)
       (ns : String),
      st.next_try ≤ now → fetch_unsynced q limit ≠ [] →
      forwarder_cycle limit q st now ns CycleOutcome.success =
        (mark_synced q ((fetch_unsynced q limit).map FetchRow.reading_uuid) ns,
         { mysql_fail_count := 0, next_try := now }, true)) ∧
    (∀ (limit : Nat) (q : List QueueReading) (st : SchedState) (now : ℚ)
       (ns : String) (outcome : CycleOutcome),
      now < st.next_try →
      forwarder_cycle limit q st now ns outcome = (q, st, false)) ∧
    ((forwarder_cycle 5 [wit_rec "a" 100]
        { mysql_fail_count := 0, next_try := 0 } 0 "n"
        CycleOutcome.remoteFail).2.1
      = { mysql_fail_count := 1, next_try := 0 + 2 } ∧
     (forwarder_cycle 5 [wit_rec "a" 100]
        { mysql_fail_count := 1, next_try := 2 } 10 "n"
        CycleOutcome.remoteFail).2.1
      = { mysql_fail_count := 2, next_try := 10 + 4 } ∧
     (forwarder_cycle 5 [wit_rec "a" 100]
        { mysql_fail_count := 2, next_try := 14 } 20 "n"
        CycleOutcome.remoteFail).2.1
      = { mysql_fail_count := 3, next_try := 20 + 8 }) := by
  have hgate : ∀ (limit : Nat) (q : List QueueReading) (st : SchedState)
      (now : ℚ) (ns : String) (outcome : CycleOutcome), now < st.next_try →
      forwarder_cycle limit q st now ns outcome = (q, st, false) := by
    intro limit q st now ns outcome h
    unfold forwarder_cycle
    rw [if_pos h]
  have hfail : ∀ (limit : Nat) (q : List QueueReading) (st : SchedState)
      (now : ℚ) (ns : String),
      st.next_try ≤ now → fetch_unsynced q limit ≠ [] →
      forwarder_cycle limit q st now ns CycleOutcome.remoteFail =
        (mark_attempt_failed q ((fetch_unsynced q limit).map FetchRow.reading_uuid) ns,
         { mysql_fail_count := st.mysql_fail_count + 1,
           next_try := now +
             ((min 300 (2 ^ min (st.mysql_fail_count + 1) 8) : ℕ) : ℚ) },
         true) := by
    intro limit q st now ns h1 h2
    unfold forwarder_cycle
    rw [if_neg (by exact not_lt.mpr h1), if_neg (by simpa using h2)]
    rfl
  refine ⟨hfail, ?_, hgate, ?_, ?_, ?_⟩
  · intro limit q st now ns h1 h2
    unfold forwarder_cycle
    rw [if_neg (by exact not_lt.mpr h1), if_neg (by simpa using h2)]
  · rw [hfail 5 [wit_rec "a" 100] _ 0 "n" (by norm_num)
      (by rw [fetch_unsynced_single]; simp)]
    norm_num
  · rw [hfail 5 [wit_rec "a" 100] _ 10 "n" (by norm_num)
      (by rw [fetch_unsynced_single]; simp)]
    norm_num
  · rw [hfail 5 [wit_rec "a" 100] _ 20 "n" (by norm_num)
      (by rw [fetch_unsynced_single]; simp)]
    norm_num

/-- Witness for `C5_backoff_schedule` at a concrete state: a remote failure at
count 0 and time 0, a success, and the gate refusing a cycle before
`next_try`. -/
theorem C5_witness :
    forwarder_cycle 5 [wit_rec "a" 100]
        { mysql_fail_count := 0, next_try := 0 } 0 "n" CycleOutcome.remoteFail =
      (mark_attempt_failed [wit_rec "a" 100]
        ((fetch_unsynced [wit_rec "a" 100] 5).map FetchRow.reading_uuid) "n",
       { mysql_fail_count := 1, next_try := 0 + ((min 300 (2 ^ min 1 8) : ℕ) : ℚ) },
       true) ∧
    forwarder_cycle 5 [wit_rec "a" 100]
        { mysql_fail_count := 4, next_try := 0 } 1 "n" CycleOutcome.success =
      (mark_synced [wit_rec "a" 100]
        ((fetch_unsynced [wit_rec "a" 100] 5).map FetchRow.reading_uuid) "n",
       { mysql_fail_count := 0, next_try := 1 }, true) ∧
    forwarder_cycle 5 [wit_rec "a" 100]
        { mysql_fail_count := 4, next_try := 3 } 1 "n" CycleOutcome.remoteFail =
      ([wit_rec "a" 100], { mysql_fail_count := 4, next_try := 3 }, false) :=
  ⟨C5_backoff_schedule.1 5 [wit_rec "a" 100] _ 0 "n" (by norm_num)
     (by rw [fetch_unsynced_single]; simp),
   C5_backoff_schedule.2.1 5 [wit_rec "a" 100] _ 1 "n" (by norm_num)
     (by rw [fetch_unsynced_single]; simp),
   C5_backoff_schedule.2.2.1 5 [wit_rec "a" 100] _ 1 "n" CycleOutcome.remoteFail
     (by norm_num)⟩

/-- C9: a forwarder cycle that fails with a local-storage transient error
(`sqlite3.OperationalError`) leaves the queue completely unchanged — no
`attempts` increment, no record marked dead — and only backs off, with the
shorter delay `min(30, 2^min(counter, 5))` instead of the remote ceiling
`min(300, 2^min(counter, 8))`. -/
theorem C9_local_error (limit : Nat) (q : List QueueReading) (st : SchedState)
    (now : ℚ) (ns : String) :
    (forwarder_cycle limit q st now ns CycleOutcome.localFail).1 = q ∧
    (st.next_try ≤ now → fetch_unsynced q limit ≠ [] →
      forwarder_cycle limit q st now ns CycleOutcome.localFail =
        (q, { mysql_fail_count := st.mysql_fail_count + 1,
              next_try := now +
                ((min 30 (2 ^ min (st.mysql_fail_count + 1) 5) : ℕ) : ℚ) },
         true)) ∧
    backoff_wait_local (st.mysql_fail_count + 1) ≤ 30 ∧
    backoff_wait_remote (st.mysql_fail_count + 1) ≤ 300 := by
  refine ⟨?_, ?_, by simp [backoff_wait_local], by simp [backoff_wait_remote]⟩
  · unfold forwarder_cycle
    by_cases h1 : now < st.next_try
    · rw [if_pos h1]
    · rw [if_neg h1]
      by_cases h2 : (fetch_unsynced q limit).isEmpty
      · simp [h2]
      · simp [h2]
  · intro h1 h2
    unfold forwarder_cycle
    rw [if_neg (not_lt.mpr h1), if_neg (by simpa using h2)]
    rfl

/-- Witness for `C9_local_error`: a local `sqlite3.OperationalError` cycle on
a one-record queue at failure count 0 leaves the record untouched and backs
off by 2 seconds (ceiling 30). -/
theorem C9_witness :
    (forwarder_cycle 5 [wit_rec "a" 100]
       { mysql_fail_count := 0, next_try := 0 } 0 "n"
       CycleOutcome.localFail).1 = [wit_rec "a" 100] ∧
    forwarder_cycle 5 [wit_rec "a" 100]
        { mysql_fail_count := 0, next_try := 0 } 0 "n" CycleOutcome.localFail =
      ([wit_rec "a" 100],
       { mysql_fail_count := 1, next_try := 0 + ((min 30 (2 ^ min 1 5) : ℕ) : ℚ) },
       true) :=
  ⟨(C9_local_error 5 [wit_rec "a" 100] _ 0 "n").1,
   (C9_local_error 5 [wit_rec "a" 100] _ 0 "n").2.1 (by norm_num)
     (by rw [fetch_unsynced_single]; simp)⟩

/-! ### Reachable-state invariants -/

theorem mark_synced_fn_uuid (uuids : List String) (now : String) (r : QueueReading) :
    (mark_synced_fn uuids now r).reading_uuid = r.reading_uuid := by
  unfold mark_synced_fn
  split <;> rfl

theorem mark_attempt_failed_fn_uuid (uuids : List String) (now : String)
    (r : QueueReading) :
    (mark_attempt_failed_fn uuids now r).reading_uuid = r.reading_uuid := by
  unfold mark_attempt_failed_fn
  split <;> rfl

theorem find_uuid_mem {q : List QueueReading} {u : String} {r : QueueReading}
    (h : find_uuid q u = some r) : r ∈ q ∧ r.reading_uuid = u :=
  ⟨List.mem_of_find?_eq_some h, by simpa using List.find?_some h⟩

theorem find_uuid_append_left {q : List QueueReading} {u : String}
    {r : QueueReading} (q' : List QueueReading) (h : find_uuid q u = some r) :
    find_uuid (q ++ q') u = some r := by
  unfold find_uuid at h ⊢
  rw [List.find?_append, h]
  rfl

theorem find_uuid_map (f : QueueReading → QueueReading)
    (hf : ∀ r, (f r).reading_uuid = r.reading_uuid) (q : List QueueReading)
    (u : String) : find_uuid (q.map f) u = (find_uuid q u).map f := by
  induction q with
  | nil => rfl
  | cons a q ih =>
    by_cases ha : (a.reading_uuid == u) = true
    · unfold find_uuid
      rw [List.map_cons, List.find?_cons_of_pos _ (by rw [hf]; exact ha),
        show List.find? (fun r => r.reading_uuid == u) (a :: q) = some a from
          List.find?_cons_of_pos _ ha]
      rfl
    · unfold find_uuid at ih ⊢
      rw [List.map_cons, List.find?_cons_of_neg _ (by rw [hf]; exact ha),
        show List.find? (fun r => r.reading_uuid == u) (a :: q)
            = List.find? (fun r => r.reading_uuid == u) q from
          List.find?_cons_of_neg _ ha]
      exact ih

theorem uuid_unique {q : List QueueReading}
    (hn : (q.map QueueReading.reading_uuid).Nodup) {r s : QueueReading}
    (hr : r ∈ q) (hs : s ∈ q) (h : r.reading_uuid = s.reading_uuid) : r = s :=
  List.inj_on_of_nodup_map hn hr hs h

theorem select_unsynced_uuid_nodup {q : List QueueReading}
    (hn : (q.map QueueReading.reading_uuid).Nodup) (limit : Nat) :
    ((select_unsynced q limit).map QueueReading.reading_uuid).Nodup := by
  unfold select_unsynced
  have h1 : ((q.filter (fun r => !r.synced && !r.dead)).map
      QueueReading.reading_uuid).Nodup :=
    List.Nodup.sublist ((List.filter_sublist q).map _) hn
  have h2 : (((q.filter (fun r => !r.synced && !r.dead)).mergeSort
      (fun a b => decide (a.ts_epoch_utc ≤ b.ts_epoch_utc))).map
      QueueReading.reading_uuid).Nodup := by
    have hperm := (List.mergeSort_perm (q.filter (fun r => !r.synced && !r.dead))
      (fun a b => decide (a.ts_epoch_utc ≤ b.ts_epoch_utc))).map
      QueueReading.reading_uuid
    exact hperm.nodup_iff.mpr h1
  exact List.Nodup.sublist ((List.take_sublist _ _).map _) h2

theorem fetched_uuids_eq (q : List QueueReading) (limit : Nat) :
    fetched_uuids q limit = (select_unsynced q limit).map QueueReading.reading_uuid := by
  unfold fetched_uuids fetch_unsynced
  rw [List.map_map]
  rfl

theorem fetched_uuids_nodup {q : List QueueReading}
    (hn : (q.map QueueReading.reading_uuid).Nodup) (limit : Nat) :
    (fetched_uuids q limit).Nodup := by
  rw [fetched_uuids_eq]
  exact select_unsynced_uuid_nodup hn limit

theorem mem_fetched_uuids {q : List QueueReading} {limit : Nat} {u : String}
    (h : u ∈ fetched_uuids q limit) :
    ∃ s ∈ q, s.reading_uuid = u ∧ s.synced = false ∧ s.dead = false := by
  rw [fetched_uuids_eq] at h
  obtain ⟨s, hs, rfl⟩ := List.mem_map.mp h
  obtain ⟨h1, h2, h3⟩ := select_unsynced_mem hs
  exact ⟨s, h1, rfl, h2, h3⟩

theorem queue_inv_append {q new : List QueueReading}
    (hn : (q.map QueueReading.reading_uuid).Nodup)
    (hnodupnew : (new.map QueueReading.reading_uuid).Nodup)
    (hdisj : ∀ r ∈ new, ∀ s ∈ q, r.reading_uuid ≠ s.reading_uuid) :
    ((q ++ new).map QueueReading.reading_uuid).Nodup := by
  rw [List.map_append, List.nodup_append]
  refine ⟨hn, hnodupnew, ?_⟩
  intro a ha hb
  obtain ⟨s, hsq, rfl⟩ := List.mem_map.mp ha
  obtain ⟨r, hrn, hru⟩ := List.mem_map.mp hb
  exact hdisj r hrn s hsq hru

theorem queue_inv_step {q q' : List QueueReading} (h : QStep q q')
    (hq : queue_inv q) : queue_inv q' := by
  obtain ⟨hn, hf⟩ := hq
  cases h with
  | append dk st pin u tse tsu t hh ok em hfresh =>
    constructor
    · unfold insert_queue
      rw [List.map_append, List.nodup_append]
      refine ⟨hn, by simp, ?_⟩
      intro a ha hb
      obtain ⟨r, hrq, rfl⟩ := List.mem_map.mp ha
      simp only [List.map_cons, List.map_nil, List.mem_singleton] at hb
      exact hfresh r hrq hb
    · intro r hr
      unfold insert_queue at hr
      rw [List.mem_append] at hr
      rcases hr with hr | hr
      · exact hf r hr
      · simp only [List.mem_singleton] at hr
        subst hr
        simp
  | cycleSuccess new limit now hnew =>
    obtain ⟨hflags, hdisj, hnodupnew⟩ := hnew
    have hud : (fetched_uuids q limit).Nodup := fetched_uuids_nodup hn limit
    have happ : ((q ++ new).map QueueReading.reading_uuid).Nodup :=
      queue_inv_append hn hnodupnew hdisj
    rw [mark_synced_eq_map _ _ _ hud]
    constructor
    · rw [List.map_map]
      have hcomp : (QueueReading.reading_uuid ∘
          mark_synced_fn (fetched_uuids q limit) now) = QueueReading.reading_uuid :=
        funext fun r => mark_synced_fn_uuid _ _ r
      rw [hcomp]
      exact happ
    · intro r hr
      obtain ⟨s, hs, rfl⟩ := List.mem_map.mp hr
      by_cases hmem : s.reading_uuid ∈ fetched_uuids q limit
      · obtain ⟨t0, ht0q, ht0u, ht0s, ht0d⟩ := mem_fetched_uuids hmem
        have hts : t0 = s :=
          uuid_unique happ (List.mem_append_left new ht0q) hs ht0u
        have hsd : s.dead = false := hts ▸ ht0d
        unfold mark_synced_fn
        rw [if_pos hmem]
        simp [hsd]
      · unfold mark_synced_fn
        rw [if_neg hmem]
        rw [List.mem_append] at hs
        rcases hs with hs | hs
        · exact hf s hs
        · obtain ⟨h1, h2, -⟩ := hflags s hs
          simp [h1, h2]
  | cycleFailure new limit now hnew =>
    obtain ⟨hflags, hdisj, hnodupnew⟩ := hnew
    have hud : (fetched_uuids q limit).Nodup := fetched_uuids_nodup hn limit
    have happ : ((q ++ new).map QueueReading.reading_uuid).Nodup :=
      queue_inv_append hn hnodupnew hdisj
    rw [mark_attempt_failed_eq_map _ _ _ hud]
    constructor
    · rw [List.map_map]
      have hcomp : (QueueReading.reading_uuid ∘
          mark_attempt_failed_fn (fetched_uuids q limit) now)
          = QueueReading.reading_uuid :=
        funext fun r => mark_attempt_failed_fn_uuid _ _ r
      rw [hcomp]
      exact happ
    · intro r hr
      obtain ⟨s, hs, rfl⟩ := List.mem_map.mp hr
      have hsflags : ¬(s.synced = true ∧ s.dead = true) := by
        rw [List.mem_append] at hs
        rcases hs with hs | hs
        · exact hf s hs
        · obtain ⟨h1, h2, -⟩ := hflags s hs
          simp [h1, h2]
      unfold mark_attempt_failed_fn
      split
      · simpa using hsflags
      · exact hsflags
  | sweep m =>
    constructor
    · show ((q.map _).map QueueReading.reading_uuid).Nodup
      rw [List.map_map]
      have hcomp : (QueueReading.reading_uuid ∘ fun r =>
          if dead_eligible m r then { r with dead := true } else r)
          = QueueReading.reading_uuid :=
        funext fun r => by
          show (if dead_eligible m r then ({ r with dead := true } : QueueReading)
            else r).reading_uuid = r.reading_uuid
          split <;> rfl
      rw [hcomp]
      exact hn
    · intro r hr
      simp only [mark_dead_if_exceeded, List.mem_map] at hr
      obtain ⟨s, hsq, rfl⟩ := hr
      by_cases hel : dead_eligible m s
      · rw [if_pos hel]
        have hs : s.synced = false := by
          simp only [dead_eligible, Bool.and_eq_true, Bool.not_eq_true'] at hel
          exact hel.1.1
        simp [hs]
      · rw [if_neg hel]
        exact hf s hsq
  | retention enable cutoff =>
    by_cases he : enable
    · subst he
      constructor
      · exact List.Nodup.sublist ((List.filter_sublist q).map _) hn
      · intro r hr
        exact hf r (List.mem_of_mem_filter hr)
    · have he' : enable = false := by simpa using he
      subst he'
      exact ⟨hn, hf⟩

theorem queue_inv_reachable {q : List QueueReading} (h : QReachable q) :
    queue_inv q := by
  unfold QReachable at h
  induction h with
  | refl => exact ⟨List.nodup_nil, by simp⟩
  | tail _ hstep ih => exact queue_inv_step hstep ih

/-- C1: along every step out of a reachable queue state, the record with a
given `reading_uuid` either keeps its delivery flags or moves from pending
(`synced=0, dead=0`) to exactly one of `synced` or `dead` — no step ever
leaves `synced` or `dead` — and its `attempts` counter never decreases. -/
theorem C1_state_transitions (q q' : List QueueReading)
    (hreach : QReachable q) (hstep : QStep q q') (u : String)
    (r r' : QueueReading) (hr : find_uuid q u = some r)
    (hr' : find_uuid q' u = some r') :
    r.attempts ≤ r'.attempts ∧
    ((r'.synced = r.synced ∧ r'.dead = r.dead) ∨
     (r.synced = false ∧ r.dead = false ∧
      ((r'.synced = true ∧ r'.dead = false) ∨
       (r'.synced = false ∧ r'.dead = true)))) := by
  obtain ⟨hn, hf⟩ := queue_inv_reachable hreach
  obtain ⟨hrq, hru⟩ := find_uuid_mem hr
  cases hstep with
  | append dk st pin u0 tse tsu t hh ok em hfresh =>
    have heq : find_uuid (insert_queue q dk st pin u0 tse tsu t hh ok em) u
        = some r := by
      unfold insert_queue
      exact find_uuid_append_left _ hr
    rw [heq] at hr'
    obtain rfl : r = r' := by injection hr'
    exact ⟨le_refl _, Or.inl ⟨rfl, rfl⟩⟩
  | cycleSuccess new limit now hnew =>
    have hud := fetched_uuids_nodup hn limit
    rw [mark_synced_eq_map _ _ _ hud,
      find_uuid_map _ (mark_synced_fn_uuid _ _) _ _,
      find_uuid_append_left new hr] at hr'
    have hr'' : r' = mark_synced_fn (fetched_uuids q limit) now r := by
      injection hr' with h
      exact h.symm
    subst hr''
    unfold mark_synced_fn
    by_cases hmem : r.reading_uuid ∈ fetched_uuids q limit
    · rw [if_pos hmem]
      obtain ⟨t0, ht0q, ht0u, ht0s, ht0d⟩ := mem_fetched_uuids hmem
      have ht : t0 = r := uuid_unique hn ht0q hrq ht0u
      rw [ht] at ht0s ht0d
      exact ⟨Nat.le_succ _, Or.inr ⟨ht0s, ht0d, Or.inl ⟨rfl, ht0d⟩⟩⟩
    · rw [if_neg hmem]
      exact ⟨le_refl _, Or.inl ⟨rfl, rfl⟩⟩
  | cycleFailure new limit now hnew =>
    have hud := fetched_uuids_nodup hn limit
    rw [mark_attempt_failed_eq_map _ _ _ hud,
      find_uuid_map _ (mark_attempt_failed_fn_uuid _ _) _ _,
      find_uuid_append_left new hr] at hr'
    have hr'' : r' = mark_attempt_failed_fn (fetched_uuids q limit) now r := by
      injection hr' with h
      exact h.symm
    subst hr''
    unfold mark_attempt_failed_fn
    by_cases hmem : r.reading_uuid ∈ fetched_uuids q limit
    · rw [if_pos hmem]
      exact ⟨Nat.le_succ _, Or.inl ⟨rfl, rfl⟩⟩
    · rw [if_neg hmem]
      exact ⟨le_refl _, Or.inl ⟨rfl, rfl⟩⟩
  | sweep m =>
    rw [show (mark_dead_if_exceeded m q).1 = q.map (fun s =>
        if dead_eligible m s then { s with dead := true } else s) from rfl,
      find_uuid_map _ (fun s => by split <;> rfl) _ _, hr] at hr'
    have hr'' : r' = if dead_eligible m r then { r with dead := true } else r := by
      injection hr' with h
      exact h.symm
    subst hr''
    by_cases hel : dead_eligible m r
    · rw [if_pos hel]
      have h1 : r.synced = false ∧ r.dead = false := by
        simp only [dead_eligible, Bool.and_eq_true, Bool.not_eq_true'] at hel
        exact ⟨hel.1.1, hel.1.2⟩
      exact ⟨le_refl _, Or.inr ⟨h1.1, h1.2, Or.inr ⟨h1.1, rfl⟩⟩⟩
    · rw [if_neg hel]
      exact ⟨le_refl _, Or.inl ⟨rfl, rfl⟩⟩
  | retention enable cutoff =>
    by_cases he : enable = true
    · subst he
      rw [show (retention_cleanup true cutoff q).1
          = q.filter (fun s => !retention_delete cutoff s) from rfl] at hr'
      obtain ⟨hr'mem, hr'u⟩ := find_uuid_mem hr'
      have hr'q : r' ∈ q := List.mem_of_mem_filter hr'mem
      obtain rfl : r = r' := uuid_unique hn hrq hr'q (by rw [hru, hr'u])
      exact ⟨le_refl _, Or.inl ⟨rfl, rfl⟩⟩
    · have he' : enable = false := by simpa using he
      subst he'
      rw [show (retention_cleanup false cutoff q).1 = q from rfl, hr] at hr'
      obtain rfl : r = r' := by injection hr'
      exact ⟨le_refl _, Or.inl ⟨rfl, rfl⟩⟩

/-- Witness for `C1_state_transitions`: the dead-letter sweep with threshold 0
on a reachable one-record queue moves the pending record to `dead` without
decreasing `attempts`. -/
theorem C1_witness :
    (wit_rec "a" 100).attempts ≤
      ({ wit_rec "a" 100 with dead := true } : QueueReading).attempts ∧
    ((({ wit_rec "a" 100 with dead := true } : QueueReading).synced
        = (wit_rec "a" 100).synced ∧
      ({ wit_rec "a" 100 with dead := true } : QueueReading).dead
        = (wit_rec "a" 100).dead) ∨
     ((wit_rec "a" 100).synced = false ∧ (wit_rec "a" 100).dead = false ∧
      ((({ wit_rec "a" 100 with dead := true } : QueueReading).synced = true ∧
        ({ wit_rec "a" 100 with dead := true } : QueueReading).dead = false) ∨
       (({ wit_rec "a" 100 with dead := true } : QueueReading).synced = false ∧
        ({ wit_rec "a" 100 with dead := true } : QueueReading).dead = true)))) := by
  have hre : QReachable [wit_rec "a" 100] :=
    Relation.ReflTransGen.single
      (QStep.append [] "dev" "DHT11" "GPIO4" "a" 100 "t" none none true none
        (by simp))
  exact C1_state_transitions [wit_rec "a" 100]
    (mark_dead_if_exceeded 0 [wit_rec "a" 100]).1 hre
    (QStep.sweep [wit_rec "a" 100] 0) "a" (wit_rec "a" 100)
    { wit_rec "a" 100 with dead := true } (by decide) (by decide)

/-- C10: in every queue state reachable via the producer's `insert_queue` and
the forwarder loop's operations, no record has `synced=1` and `dead=1` at the
same time, so the two flag columns encode exactly one of the three delivery
states pending/synced/dead. -/
theorem C10_flags_exclusive (q : List QueueReading) (h : QReachable q) :
    ∀ r ∈ q, ¬(r.synced = true ∧ r.dead = true) :=
  (queue_inv_reachable h).2

/-- Witness for `C10_flags_exclusive` on a concrete reachable one-record
queue. -/
theorem C10_witness :
    ¬((wit_rec "a" 100).synced = true ∧ (wit_rec "a" 100).dead = true) := by
  have hre : QReachable [wit_rec "a" 100] :=
    Relation.ReflTransGen.single
      (QStep.append [] "dev" "DHT11" "GPIO4" "a" 100 "t" none none true none
        (by simp))
  exact C10_flags_exclusive [wit_rec "a" 100] hre (wit_rec "a" 100) (by simp)
